import Mathlib

/-!
# cloud66 client: stack operations (`stack.go`)

A shallow embedding of the stack accessors of the cloud66 Go client and the
properties of its pagination loop, name lookup, build waiter, setting update
and firewall lease.

Conventions of the embedding

* Go `int`/`int64` values are `Int`; none of the modelled code does arithmetic
  that can overflow (`3 * time.Hour` is far below `2^63`).
* A Go result pair `(v, err)` is a Lean pair whose second component is
  `Option GoError` (`none` is the `nil` error); a pointer is an `Option`;
  a `nil` slice and an empty slice are both `[]`.
* The effects of a call (the state of the remote service, the monotonic clock
  and the trace of executed requests, sleeps and output) are threaded through
  a `World`.
* Loops that the source does not bound take a `fuel` argument; `none` is
  "more than `fuel` iterations".
-/

namespace Cloud66

/-! ## Go runtime and standard library -/

/-- A Go `error` value, identified by its message. -/
structure GoError where
  msg : String
deriving DecidableEq, Repr

/-- Go `errors.New`. -/
def errors.New (text : String) : GoError := ⟨text⟩

/-- Go `strconv.FormatInt(i, base)`, for bases 2 to 16; `stack.go` uses base
10 only. -/
def strconv.FormatInt (i : Int) (base : Nat) : String :=
  if i < 0 then "-" ++ String.mk (Nat.toDigits base i.natAbs)
  else String.mk (Nat.toDigits base i.natAbs)

/-- Go `strconv.Itoa`. -/
def strconv.Itoa (i : Int) : String := strconv.FormatInt i 10

/-- Go `time.Duration`: a count of nanoseconds. -/
abbrev Duration := Int

def time.Nanosecond : Duration := 1
def time.Microsecond : Duration := 1000 * time.Nanosecond
def time.Millisecond : Duration := 1000 * time.Microsecond
def time.Second : Duration := 1000 * time.Millisecond
def time.Minute : Duration := 60 * time.Second
def time.Hour : Duration := 60 * time.Minute

/-- Go `unicode.ToLower`. The case table for runes above `MaxASCII` belongs to
the Go standard library and is the parameter `table`. -/
def unicode.ToLower (table : Char → Char) (r : Char) : Char :=
  if r.toNat ≤ 127 then
    if 'A'.toNat ≤ r.toNat ∧ r.toNat ≤ 'Z'.toNat then Char.ofNat (r.toNat + ('a'.toNat - 'A'.toNat))
    else r
  else table r

/-- Go `strings.ToLower` on a valid UTF-8 string: every rune is mapped by
`unicode.ToLower` (the ASCII-only fast path of the library computes the same
string). -/
def strings.ToLower (table : Char → Char) (s : String) : String :=
  String.mk (s.data.map (unicode.ToLower table))

/-- Replacement of the leftmost non-overlapping occurrences of a non-empty
`old`. `lim` is the number of replacements still allowed (`none`: no limit);
`skip` counts the characters of the occurrence just replaced that are still to
be dropped. -/
def strings.replaceFrom (old new : List Char) : Option Nat → Nat → List Char → List Char
  | _, _, [] => []
  | lim, skip + 1, _ :: cs => strings.replaceFrom old new lim skip cs
  | lim, 0, c :: cs =>
    if lim ≠ some 0 ∧ old.isPrefixOf (c :: cs) = true then
      new ++ strings.replaceFrom old new (lim.map (· - 1)) (old.length - 1) cs
    else c :: strings.replaceFrom old new lim 0 cs

/-- Replacement of the empty string: `new` is inserted before every rune and at
the end, up to `lim` times. -/
def strings.replaceEmpty (new : List Char) : Option Nat → List Char → List Char
  | lim, [] => if lim = some 0 then [] else new
  | lim, c :: cs =>
    if lim = some 0 then c :: cs
    else new ++ c :: strings.replaceEmpty new (lim.map (· - 1)) cs

/-- Go `strings.Replace(s, old, new, n)`; a negative `n` puts no limit on the
number of replacements. -/
def strings.Replace (s old new : String) (n : Int) : String :=
  if old = new ∨ n = 0 then s
  else
    let lim : Option Nat := if n < 0 then none else some n.toNat
    if old.data = [] then String.mk (strings.replaceEmpty new.data lim s.data)
    else String.mk (strings.replaceFrom old.data new.data lim 0 s.data)

/-! ## Data model -/

/-- Go `time.Time`, as an instant. -/
structure Time where
  unixNano : Int
deriving DecidableEq, Repr

/-- A decoded JSON scalar: the values an `interface{}` field or a request body
field holds. -/
inductive JsonValue
  | null
  | bool (b : Bool)
  | int (n : Int)
  | str (s : String)
deriving DecidableEq, Repr

/-- A JSON object: the fields of a Go struct under their `json` tags, in
declaration order. -/
abbrev JsonObject := List (String × JsonValue)

structure Stack where
  Uid : String
  Name : String
  Git : String
  GitBranch : String
  Environment : String
  Cloud : String
  Fqdn : String
  Language : String
  Framework : String
  StatusCode : Int
  HealthCode : Int
  MaintenanceMode : Bool
  HasLoadBalancer : Bool
  RedeployHook : Option String
  LastActivity : Option Time
  UpdatedAt : Time
  CreatedAt : Time
  DeployDir : String
deriving DecidableEq, Repr

structure StackSetting where
  Key : String
  Value : JsonValue
  Readonly : Bool
deriving DecidableEq, Repr

structure StackEnvVar where
  Key : String
  Value : JsonValue
  Readonly : Bool
deriving DecidableEq, Repr

/-- Modelled from the spec: the `Pagination` cursor is declared outside
`stack.go`; it holds the current page number and the next page number, the two
fields the listing loops read. -/
structure Pagination where
  Current : Int
  Next : Int
deriving DecidableEq, Repr

/-- Modelled from the spec: `ManagedBackup` is declared outside `stack.go`; the
record is returned as it was decoded. -/
structure ManagedBackup where
  fields : JsonObject
deriving DecidableEq, Repr

/-- Modelled from the spec: `AsyncResult` is declared outside `stack.go`; it is
the identifier of a submitted asynchronous operation. -/
structure AsyncResult where
  Id : Int
deriving DecidableEq, Repr

/-- Stack filter of `StackListWithFilter` (`filterFunction`). -/
abbrev filterFunction := Stack → Bool

/-! ## The client and its environment -/

/-- The arguments of `c.NewRequest(method, path, params, query_strings)`; the
request handle it builds is identified with them. -/
structure Request where
  method : String
  path : String
  params : Option JsonObject
  query_strings : Option (List (String × String))
deriving DecidableEq, Repr

/-- What `c.DoReq` leaves behind: its result `ρ`, the next state of the remote
side and the time the exchange took (nanoseconds). -/
structure Reply (σ ρ : Type) where
  result : ρ
  server : σ
  elapsed : Nat

/-- The methods of `*Client` that `stack.go` calls but does not define, and
the scheduler behind `time.Sleep`, over a state `σ` of the client and the
remote service. `DoReq` has one field per decoding target. A listing target
takes the cursor `p` as it stands before the call and answers with the error
or with the decoded items and the cursor as it stands after the call. A
single-object target answers with the pointer as it stands after the call and
the error. `Sleep` answers with the time slept in excess of the requested
one. -/
structure Client (σ : Type) where
  NewRequest : σ → Request → Option GoError × σ
  DoReqStacks : σ → Request → Pagination → Reply σ (Except GoError (List Stack × Pagination))
  DoReqSettings : σ → Request → Pagination →
    Reply σ (Except GoError (List StackSetting × Pagination))
  DoReqEnvVars : σ → Request → Pagination →
    Reply σ (Except GoError (List StackEnvVar × Pagination))
  DoReqBackups : σ → Request → Pagination →
    Reply σ (Except GoError (List ManagedBackup × Pagination))
  DoReqStack : σ → Request → Reply σ (Option Stack × Option GoError)
  DoReqAsync : σ → Request → Reply σ (Option AsyncResult × Option GoError)
  Sleep : σ → Duration → Nat × σ

/-- An observable effect of a call. -/
inductive Event
  | request (r : Request)
  | sleep (d : Duration)
  | print (s : String)
deriving DecidableEq, Repr

/-- The state a call runs in: the remote side, the reading of the monotonic
clock (nanoseconds) and the effects so far, oldest first. -/
structure World (σ : Type) where
  server : σ
  now : Int
  trace : List Event

/-- The world after `c.DoReq(req, ...)` answered with `r`. -/
def World.after {σ ρ : Type} (w : World σ) (req : Request) (r : Reply σ ρ) : World σ :=
  { server := r.server, now := w.now + r.elapsed, trace := w.trace ++ [Event.request req] }

/-- Go `time.Sleep(d)`: the clock advances by at least `d`. -/
def World.Sleep {σ : Type} (c : Client σ) (d : Duration) (w : World σ) : World σ :=
  { server := (c.Sleep w.server d).2
    now := w.now + max d 0 + (c.Sleep w.server d).1
    trace := w.trace ++ [Event.sleep d] }

/-- Go `fmt.Printf(s)`. -/
def World.Printf {σ : Type} (s : String) (w : World σ) : World σ :=
  { w with trace := w.trace ++ [Event.print s] }

/-- A value returned by a Go function, or a run-time panic. -/
inductive Outcome (α : Type)
  | returns (v : α)
  | panics (reason : String)

/-! ## `stack.go` -/

/-- The `for` loop of `StackList`: `page` is `query_strings["page"]`. -/
def StackList.loop {σ : Type} (c : Client σ) :
    Nat → String → Pagination → List Stack → World σ →
      Option ((List Stack × Option GoError) × World σ)
  | 0, _, _, _, _ => none
  | fuel + 1, page, p, result, w =>
    let req : Request := ⟨"GET", "/stacks.json", none, some [("page", page)]⟩
    match c.NewRequest w.server req with
    | (some err, s) => some (([], some err), { w with server := s })
    | (none, s) =>
      let r := c.DoReqStacks s req p
      let w1 := World.after { w with server := s } req r
      match r.result with
      | .error err => some (([], some err), w1)
      | .ok (stacksRes, p1) =>
        if p1.Current < p1.Next then
          StackList.loop c fuel (strconv.Itoa p1.Next) p1 (result ++ stacksRes) w1
        else some ((result ++ stacksRes, none), w1)

def StackList {σ : Type} (c : Client σ) (fuel : Nat) (w : World σ) :
    Option ((List Stack × Option GoError) × World σ) :=
  StackList.loop c fuel "1" ⟨0, 0⟩ [] w

/-- The first `for` loop of `StackListWithFilter`. -/
def StackListWithFilter.loop {σ : Type} (c : Client σ) :
    Nat → String → Pagination → List Stack → World σ →
      Option ((List Stack × Option GoError) × World σ)
  | 0, _, _, _, _ => none
  | fuel + 1, page, p, mid_result, w =>
    let req : Request := ⟨"GET", "/stacks.json", none, some [("page", page)]⟩
    match c.NewRequest w.server req with
    | (some err, s) => some (([], some err), { w with server := s })
    | (none, s) =>
      let r := c.DoReqStacks s req p
      let w1 := World.after { w with server := s } req r
      match r.result with
      | .error err => some (([], some err), w1)
      | .ok (stacksRes, p1) =>
        if p1.Current < p1.Next then
          StackListWithFilter.loop c fuel (strconv.Itoa p1.Next) p1 (mid_result ++ stacksRes) w1
        else some ((mid_result ++ stacksRes, none), w1)

/-- The second `for` loop of `StackListWithFilter`, over `mid_result`. -/
def StackListWithFilter.select (filter : filterFunction) : List Stack → List Stack → List Stack
  | result, [] => result
  | result, item :: rest =>
    if filter item then StackListWithFilter.select filter (result ++ [item]) rest
    else StackListWithFilter.select filter result rest

def StackListWithFilter {σ : Type} (c : Client σ) (filter : filterFunction) (fuel : Nat)
    (w : World σ) : Option ((List Stack × Option GoError) × World σ) :=
  match StackListWithFilter.loop c fuel "1" ⟨0, 0⟩ [] w with
  | none => none
  | some ((_, some err), w1) => some (([], some err), w1)
  | some ((mid_result, none), w1) =>
    some ((StackListWithFilter.select filter [] mid_result, none), w1)

/-- The last statement is `return stacksRes, c.DoReq(req, &stacksRes, nil)`:
the pair returned is the pointer as `DoReq` leaves it and the error of
`DoReq`. -/
def FindStackByUid {σ : Type} (c : Client σ) (stackUid : String) (w : World σ) :
    (Option Stack × Option GoError) × World σ :=
  let req : Request := ⟨"GET", "/stacks/" ++ stackUid ++ ".json", none, none⟩
  match c.NewRequest w.server req with
  | (some err, s) => ((none, some err), { w with server := s })
  | (none, s) =>
    let r := c.DoReqStack s req
    (r.result, World.after { w with server := s } req r)

/-- The `for` loop of `StackSettings`; `path` is `"/stacks/"+uid+"/settings.json"`. -/
def StackSettings.loop {σ : Type} (c : Client σ) (path : String) :
    Nat → String → Pagination → List StackSetting → World σ →
      Option ((List StackSetting × Option GoError) × World σ)
  | 0, _, _, _, _ => none
  | fuel + 1, page, p, result, w =>
    let req : Request := ⟨"GET", path, none, some [("page", page)]⟩
    match c.NewRequest w.server req with
    | (some err, s) => some (([], some err), { w with server := s })
    | (none, s) =>
      let r := c.DoReqSettings s req p
      let w1 := World.after { w with server := s } req r
      match r.result with
      | .error err => some (([], some err), w1)
      | .ok (settingsRes, p1) =>
        if p1.Current < p1.Next then
          StackSettings.loop c path fuel (strconv.Itoa p1.Next) p1 (result ++ settingsRes) w1
        else some ((result ++ settingsRes, none), w1)

def StackSettings {σ : Type} (c : Client σ) (uid : String) (fuel : Nat) (w : World σ) :
    Option ((List StackSetting × Option GoError) × World σ) :=
  StackSettings.loop c ("/stacks/" ++ uid ++ "/settings.json") fuel "1" ⟨0, 0⟩ [] w

/-- The `for` loop of `StackEnvVars`; `path` is `"/stacks/"+uid+"/environments.json"`. -/
def StackEnvVars.loop {σ : Type} (c : Client σ) (path : String) :
    Nat → String → Pagination → List StackEnvVar → World σ →
      Option ((List StackEnvVar × Option GoError) × World σ)
  | 0, _, _, _, _ => none
  | fuel + 1, page, p, result, w =>
    let req : Request := ⟨"GET", path, none, some [("page", page)]⟩
    match c.NewRequest w.server req with
    | (some err, s) => some (([], some err), { w with server := s })
    | (none, s) =>
      let r := c.DoReqEnvVars s req p
      let w1 := World.after { w with server := s } req r
      match r.result with
      | .error err => some (([], some err), w1)
      | .ok (envVarsRes, p1) =>
        if p1.Current < p1.Next then
          StackEnvVars.loop c path fuel (strconv.Itoa p1.Next) p1 (result ++ envVarsRes) w1
        else some ((result ++ envVarsRes, none), w1)

def StackEnvVars {σ : Type} (c : Client σ) (uid : String) (fuel : Nat) (w : World σ) :
    Option ((List StackEnvVar × Option GoError) × World σ) :=
  StackEnvVars.loop c ("/stacks/" ++ uid ++ "/environments.json") fuel "1" ⟨0, 0⟩ [] w

/-- The `for` loop of `ManagedBackups`; `path` is `"/stacks/"+uid+"/backups.json"`. -/
def ManagedBackups.loop {σ : Type} (c : Client σ) (path : String) :
    Nat → String → Pagination → List ManagedBackup → World σ →
      Option ((List ManagedBackup × Option GoError) × World σ)
  | 0, _, _, _, _ => none
  | fuel + 1, page, p, result, w =>
    let req : Request := ⟨"GET", path, none, some [("page", page)]⟩
    match c.NewRequest w.server req with
    | (some err, s) => some (([], some err), { w with server := s })
    | (none, s) =>
      let r := c.DoReqBackups s req p
      let w1 := World.after { w with server := s } req r
      match r.result with
      | .error err => some (([], some err), w1)
      | .ok (backupsRes, p1) =>
        if p1.Current < p1.Next then
          ManagedBackups.loop c path fuel (strconv.Itoa p1.Next) p1 (result ++ backupsRes) w1
        else some ((result ++ backupsRes, none), w1)

def ManagedBackups {σ : Type} (c : Client σ) (uid : String) (fuel : Nat) (w : World σ) :
    Option ((List ManagedBackup × Option GoError) × World σ) :=
  ManagedBackups.loop c ("/stacks/" ++ uid ++ "/backups.json") fuel "1" ⟨0, 0⟩ [] w

/-- The `range` loop of `FindStackByName` over the stacks, and the statement
after it; `err` is the error `StackList` returned. -/
def FindStackByName.scan (table : Char → Char) (stackName environment : String)
    (err : Option GoError) : List Stack → Option Stack × Option GoError
  | [] => (none, some (errors.New "Stack not found"))
  | b :: rest =>
    if (strings.ToLower table b.Name == strings.ToLower table stackName) &&
        (environment == "" || environment == b.Environment) then (some b, err)
    else FindStackByName.scan table stackName environment err rest

def FindStackByName {σ : Type} (table : Char → Char) (c : Client σ)
    (stackName environment : String) (fuel : Nat) (w : World σ) :
    Option ((Option Stack × Option GoError) × World σ) :=
  match StackList c fuel w with
  | none => none
  | some ((stackList, err), w1) =>
    some (FindStackByName.scan table stackName environment err stackList, w1)

def StackInfo {σ : Type} (table : Char → Char) (c : Client σ) (stackName : String)
    (fuel : Nat) (w : World σ) :
    Option (Outcome (Option Stack × Option GoError) × World σ) :=
  match FindStackByName table c stackName "" fuel w with
  | none => none
  | some ((_, some err), w1) => some (.returns (none, some err), w1)
  | some ((none, none), w1) => some (.panics "nil pointer dereference", w1)
  | some ((some stack, none), w1) =>
    some (.returns (FindStackByUid c stack.Uid w1).1, (FindStackByUid c stack.Uid w1).2)

def StackInfoWithEnvironment {σ : Type} (table : Char → Char) (c : Client σ)
    (stackName environment : String) (fuel : Nat) (w : World σ) :
    Option (Outcome (Option Stack × Option GoError) × World σ) :=
  match FindStackByName table c stackName environment fuel w with
  | none => none
  | some ((_, some err), w1) => some (.returns (none, some err), w1)
  | some ((none, none), w1) => some (.panics "nil pointer dereference", w1)
  | some ((some stack, none), w1) =>
    some (.returns (FindStackByUid c stack.Uid w1).1, (FindStackByUid c stack.Uid w1).2)

/-- The `for` loop of `WaitStackBuild` and the `return` after it. `stack` is
the variable declared before the loop; the loop body declares its own
`stack, err :=`, here `fetched` and `err`, and never assigns the outer one. -/
def WaitStackBuild.loop {σ : Type} (c : Client σ) (stackUid : String)
    (timeout checkFrequency : Duration) (showWorkingIndicator : Bool) (timeoutTime : Int)
    (stack : Option Stack) :
    Nat → World σ → Option (Outcome (Option Stack × Option GoError) × World σ)
  | 0, _ => none
  | fuel + 1, w =>
    match FindStackByUid c stackUid w with
    | ((_, some err), w1) => some (.returns (none, some err), w1)
    | ((none, none), w1) => some (.panics "nil pointer dereference", w1)
    | ((some fetched, none), w1) =>
      if (fetched.StatusCode == 1 || fetched.StatusCode == 2 || fetched.StatusCode == 7) &&
          (fetched.HealthCode == 2 || fetched.HealthCode == 3 || fetched.HealthCode == 4) then
        some (.returns (stack, none), w1)
      else if w1.now > timeoutTime then
        some (.returns (none, some (errors.New ("timed-out after " ++
          strconv.FormatInt (Int.tdiv timeout time.Second) 10 ++ " second(s)"))), w1)
      else
        let w2 := World.Sleep c checkFrequency w1
        let w3 := if showWorkingIndicator then World.Printf "." w2 else w2
        WaitStackBuild.loop c stackUid timeout checkFrequency showWorkingIndicator
          timeoutTime stack fuel w3

def WaitStackBuild {σ : Type} (c : Client σ) (stackUid : String) (fuel : Nat) (w : World σ) :
    Option (Outcome (Option Stack × Option GoError) × World σ) :=
  let timeout := 3 * time.Hour
  let checkFrequency := 1 * time.Minute
  let showWorkingIndicator := true
  let timeoutTime := w.now + timeout
  let stack : Option Stack := none
  WaitStackBuild.loop c stackUid timeout checkFrequency showWorkingIndicator timeoutTime
    stack fuel w

def Set {σ : Type} (c : Client σ) (uid key value : String) (w : World σ) :
    (Option AsyncResult × Option GoError) × World σ :=
  let key := strings.Replace key "." "-" (-1)
  let params : JsonObject := [("value", .str value)]
  let req : Request := ⟨"PUT", "/stacks/" ++ uid ++ "/settings/" ++ key ++ ".json", some params, none⟩
  match c.NewRequest w.server req with
  | (some err, s) => ((none, some err), { w with server := s })
  | (none, s) =>
    let r := c.DoReqAsync s req
    (r.result, World.after { w with server := s } req r)

/-- A pointer field of a request body: `null` when `nil`. -/
def JsonValue.ofIntPtr : Option Int → JsonValue
  | none => .null
  | some n => .int n

/-- A pointer field of a request body: `null` when `nil`. -/
def JsonValue.ofStringPtr : Option String → JsonValue
  | none => .null
  | some s => .str s

def Lease {σ : Type} (c : Client σ) (uid : String) (ipAddress : Option String)
    (timeToOpen port : Option Int) (serverUid : Option String) (w : World σ) :
    (Option AsyncResult × Option GoError) × World σ :=
  let theIpAddress : Option String :=
    match ipAddress with
    | none => some "AUTO"
    | some v => some v
  let theTimeToOpen : Option Int :=
    match timeToOpen with
    | none => some 20
    | some v => some v
  let thePort : Option Int :=
    match port with
    | none => some 22
    | some v => some v
  let theServerUid : Option String :=
    match serverUid with
    | none => some ""
    | some v => some v
  let params : JsonObject :=
    [("ttl", .ofIntPtr theTimeToOpen), ("from_ip", .ofStringPtr theIpAddress),
     ("port", .ofIntPtr thePort), ("server_id", .ofStringPtr theServerUid)]
  let req : Request := ⟨"POST", "/stacks/" ++ uid ++ "/firewalls.json", some params, none⟩
  match c.NewRequest w.server req with
  | (some err, s) => ((none, some err), { w with server := s })
  | (none, s) =>
    let r := c.DoReqAsync s req
    (r.result, World.after { w with server := s } req r)

/-! ## A scripted remote side

The test double of the development: the state of the remote side is the list
of the steps still to come, and every call consumes the step at the head. -/

/-- One scripted step: a page of a listing, a stack snapshot that takes
`elapsed` nanoseconds to fetch, the answer to a mutating call, a request that
cannot be built, or an exchange that fails (transport or decoding). -/
inductive Step
  | stackPage (page : List Stack × Pagination)
  | settingPage (page : List StackSetting × Pagination)
  | envVarPage (page : List StackEnvVar × Pagination)
  | backupPage (page : List ManagedBackup × Pagination)
  | snapshot (stack : Stack) (elapsed : Nat)
  | accepted (res : AsyncResult)
  | buildFails (err : GoError)
  | sendFails (err : GoError)
deriving DecidableEq, Repr

/-- The error of the scripted remote side when the script does not fit the
call. -/
def scriptMismatch : GoError := errors.New "unexpected EOF"

/-- The client over a script. -/
def scripted : Client (List Step) where
  NewRequest s _ :=
    match s with
    | .buildFails err :: rest => (some err, rest)
    | _ => (none, s)
  DoReqStacks s _ _ :=
    match s with
    | .stackPage page :: rest => ⟨.ok page, rest, 0⟩
    | .sendFails err :: rest => ⟨.error err, rest, 0⟩
    | _ => ⟨.error scriptMismatch, s.tail, 0⟩
  DoReqSettings s _ _ :=
    match s with
    | .settingPage page :: rest => ⟨.ok page, rest, 0⟩
    | .sendFails err :: rest => ⟨.error err, rest, 0⟩
    | _ => ⟨.error scriptMismatch, s.tail, 0⟩
  DoReqEnvVars s _ _ :=
    match s with
    | .envVarPage page :: rest => ⟨.ok page, rest, 0⟩
    | .sendFails err :: rest => ⟨.error err, rest, 0⟩
    | _ => ⟨.error scriptMismatch, s.tail, 0⟩
  DoReqBackups s _ _ :=
    match s with
    | .backupPage page :: rest => ⟨.ok page, rest, 0⟩
    | .sendFails err :: rest => ⟨.error err, rest, 0⟩
    | _ => ⟨.error scriptMismatch, s.tail, 0⟩
  DoReqStack s _ :=
    match s with
    | .snapshot stack elapsed :: rest => ⟨(some stack, none), rest, elapsed⟩
    | .sendFails err :: rest => ⟨(none, some err), rest, 0⟩
    | _ => ⟨(none, some scriptMismatch), s.tail, 0⟩
  DoReqAsync s _ :=
    match s with
    | .accepted res :: rest => ⟨(some res, none), rest, 0⟩
    | .sendFails err :: rest => ⟨(none, some err), rest, 0⟩
    | _ => ⟨(none, some scriptMismatch), s.tail, 0⟩
  Sleep s _ := (0, s)

/-- The request of a listing for the page `page` of `path`. -/
def pageRequest (path page : String) : Request :=
  ⟨"GET", path, none, some [("page", page)]⟩

/-- The common shape of the listing loops of `stack.go`, over the two client
methods they call. Used to prove their properties once. -/
def pagedLoop {σ α : Type} (newRequest : σ → Request → Option GoError × σ)
    (doReq : σ → Request → Pagination → Reply σ (Except GoError (List α × Pagination)))
    (path : String) :
    Nat → String → Pagination → List α → World σ →
      Option ((List α × Option GoError) × World σ)
  | 0, _, _, _, _ => none
  | fuel + 1, page, p, result, w =>
    match newRequest w.server (pageRequest path page) with
    | (some err, s) => some (([], some err), { w with server := s })
    | (none, s) =>
      let r := doReq s (pageRequest path page) p
      let w1 := World.after { w with server := s } (pageRequest path page) r
      match r.result with
      | .error err => some (([], some err), w1)
      | .ok (items, p1) =>
        if p1.Current < p1.Next then
          pagedLoop newRequest doReq path fuel (strconv.Itoa p1.Next) p1 (result ++ items) w1
        else some ((result ++ items, none), w1)

/-- The requests of a listing of `path` that starts at `page` and follows the
`next` values of `pages`. -/
def pageRequests (path page : String) (pages : List Pagination) : List Event :=
  (page :: pages.map (fun p => strconv.Itoa p.Next)).map
    (fun q => Event.request (pageRequest path q))

/-- The requests a failing listing issues: when the request for the last page
of `reqs` cannot be built it is not sent. -/
def attempted (failure : Step) (reqs : List Event) : List Event :=
  match failure with
  | .buildFails _ => reqs.dropLast
  | _ => reqs

/-! ## The paginated listings, uniformly, and sample data -/

/-- The four paginated listings of `stack.go`. -/
inductive Listing
  | ofStacks
  | ofSettings (uid : String)
  | ofEnvVars (uid : String)
  | ofBackups (uid : String)

/-- The type of the items of a listing. -/
def Listing.Item : Listing → Type
  | .ofStacks => Stack
  | .ofSettings _ => StackSetting
  | .ofEnvVars _ => StackEnvVar
  | .ofBackups _ => ManagedBackup

/-- The path a listing requests. -/
def Listing.path : Listing → String
  | .ofStacks => "/stacks.json"
  | .ofSettings uid => "/stacks/" ++ uid ++ "/settings.json"
  | .ofEnvVars uid => "/stacks/" ++ uid ++ "/environments.json"
  | .ofBackups uid => "/stacks/" ++ uid ++ "/backups.json"

/-- The function of `stack.go` behind a listing. -/
def Listing.run {σ : Type} (l : Listing) (c : Client σ) (fuel : Nat) (w : World σ) :
    Option ((List l.Item × Option GoError) × World σ) :=
  match l with
  | .ofStacks => StackList c fuel w
  | .ofSettings uid => StackSettings c uid fuel w
  | .ofEnvVars uid => StackEnvVars c uid fuel w
  | .ofBackups uid => ManagedBackups c uid fuel w

/-- The scripted step that serves one page of a listing. -/
def Listing.step (l : Listing) (page : List l.Item × Pagination) : Step :=
  match l, page with
  | .ofStacks, page => Step.stackPage page
  | .ofSettings _, page => Step.settingPage page
  | .ofEnvVars _, page => Step.envVarPage page
  | .ofBackups _, page => Step.backupPage page

/-- A stack with the given uid, name and environment and the given status and
health codes; the other fields are empty. -/
def sampleStack (uid name environment : String) (status health : Int) : Stack :=
  { Uid := uid, Name := name, Git := "", GitBranch := "", Environment := environment,
    Cloud := "", Fqdn := "", Language := "", Framework := "", StatusCode := status,
    HealthCode := health, MaintenanceMode := false, HasLoadBalancer := false,
    RedeployHook := none, LastActivity := none, UpdatedAt := ⟨0⟩, CreatedAt := ⟨0⟩,
    DeployDir := "" }

/-! ## Vocabulary of the build waiter -/

/-- The terminal predicate in the words of the specification: the status is
deploy-succeeded (1), deploy-failed (2) or terminal-analysis-failure (7) and
the health is partial (2), healthy (3) or broken (4). -/
abbrev terminalPerSpec (s : Stack) : Prop :=
  (s.StatusCode = 1 ∨ s.StatusCode = 2 ∨ s.StatusCode = 7) ∧
    (s.HealthCode = 2 ∨ s.HealthCode = 3 ∨ s.HealthCode = 4)

/-- The request `FindStackByUid` sends. -/
def uidRequest (stackUid : String) : Request :=
  ⟨"GET", "/stacks/" ++ stackUid ++ ".json", none, none⟩

/-- The effects of one poll of `WaitStackBuild` that is followed by another. -/
def pollRound (stackUid : String) : List Event :=
  [Event.request (uidRequest stackUid), Event.sleep time.Minute, Event.print "."]

/-- A client whose every request can be built and whose every fetch of a stack
takes `lat` nanoseconds and answers with `stack`; a sleep lasts `extra`
nanoseconds longer than asked. The state counts the requests. -/
def steady (stack : Stack) (lat extra : Nat) : Client Nat where
  NewRequest s _ := (none, s)
  DoReqStacks s _ _ := ⟨.error scriptMismatch, s + 1, lat⟩
  DoReqSettings s _ _ := ⟨.error scriptMismatch, s + 1, lat⟩
  DoReqEnvVars s _ _ := ⟨.error scriptMismatch, s + 1, lat⟩
  DoReqBackups s _ _ := ⟨.error scriptMismatch, s + 1, lat⟩
  DoReqStack s _ := ⟨(some stack, none), s + 1, lat⟩
  DoReqAsync s _ := ⟨(none, some scriptMismatch), s + 1, lat⟩
  Sleep s _ := (extra, s)

/-! # Properties -/

/-! ## The listing loops -/

theorem StackList_loop_eq {σ : Type} (c : Client σ) (fuel : Nat) (page : String)
    (p : Pagination) (result : List Stack) (w : World σ) :
    StackList.loop c fuel page p result w =
      pagedLoop c.NewRequest c.DoReqStacks "/stacks.json" fuel page p result w := by
  induction fuel generalizing page p result w with
  | zero => rfl
  | succ n ih =>
    simp only [StackList.loop, pagedLoop, pageRequest, ih]
    split
    · rfl
    · split <;> rename_i h <;> simp only [h]

theorem StackListWithFilter_loop_eq {σ : Type} (c : Client σ) (fuel : Nat) (page : String)
    (p : Pagination) (result : List Stack) (w : World σ) :
    StackListWithFilter.loop c fuel page p result w =
      pagedLoop c.NewRequest c.DoReqStacks "/stacks.json" fuel page p result w := by
  induction fuel generalizing page p result w with
  | zero => rfl
  | succ n ih =>
    simp only [StackListWithFilter.loop, pagedLoop, pageRequest, ih]
    split
    · rfl
    · split <;> rename_i h <;> simp only [h]

theorem StackSettings_loop_eq {σ : Type} (c : Client σ) (path : String) (fuel : Nat)
    (page : String) (p : Pagination) (result : List StackSetting) (w : World σ) :
    StackSettings.loop c path fuel page p result w =
      pagedLoop c.NewRequest c.DoReqSettings path fuel page p result w := by
  induction fuel generalizing page p result w with
  | zero => rfl
  | succ n ih =>
    simp only [StackSettings.loop, pagedLoop, pageRequest, ih]
    split
    · rfl
    · split <;> rename_i h <;> simp only [h]

theorem StackEnvVars_loop_eq {σ : Type} (c : Client σ) (path : String) (fuel : Nat)
    (page : String) (p : Pagination) (result : List StackEnvVar) (w : World σ) :
    StackEnvVars.loop c path fuel page p result w =
      pagedLoop c.NewRequest c.DoReqEnvVars path fuel page p result w := by
  induction fuel generalizing page p result w with
  | zero => rfl
  | succ n ih =>
    simp only [StackEnvVars.loop, pagedLoop, pageRequest, ih]
    split
    · rfl
    · split <;> rename_i h <;> simp only [h]

theorem ManagedBackups_loop_eq {σ : Type} (c : Client σ) (path : String) (fuel : Nat)
    (page : String) (p : Pagination) (result : List ManagedBackup) (w : World σ) :
    ManagedBackups.loop c path fuel page p result w =
      pagedLoop c.NewRequest c.DoReqBackups path fuel page p result w := by
  induction fuel generalizing page p result w with
  | zero => rfl
  | succ n ih =>
    simp only [ManagedBackups.loop, pagedLoop, pageRequest, ih]
    split
    · rfl
    · split <;> rename_i h <;> simp only [h]

/-- A listing that returns an error returns no items with it. -/
theorem pagedLoop_error_nil {σ α : Type} (newRequest : σ → Request → Option GoError × σ)
    (doReq : σ → Request → Pagination → Reply σ (Except GoError (List α × Pagination)))
    (path : String) (fuel : Nat) (page : String) (p : Pagination) (result : List α)
    (w : World σ) (items : List α) (e : GoError) (w1 : World σ)
    (h : pagedLoop newRequest doReq path fuel page p result w = some ((items, some e), w1)) :
    items = [] := by
  induction fuel generalizing page p result w with
  | zero => simp [pagedLoop] at h
  | succ n ih =>
    simp only [pagedLoop] at h
    split at h
    · simp only [Option.some.injEq, Prod.mk.injEq] at h
      exact h.1.1.symm
    · split at h
      · simp only [Option.some.injEq, Prod.mk.injEq] at h
        exact h.1.1.symm
      · split at h
        · exact ih _ _ _ _ h
        · simp at h

/-- A listing loop against a script of pages: every page but the last
announces a next page, and the loop returns all of them. -/
theorem pagedLoop_pages {α : Type} (newRequest : List Step → Request → Option GoError × List Step)
    (doReq : List Step → Request → Pagination →
      Reply (List Step) (Except GoError (List α × Pagination)))
    (inj : List α × Pagination → Step) (path : String)
    (hN : ∀ x rest req, newRequest (inj x :: rest) req = (none, inj x :: rest))
    (hD : ∀ x rest req p, doReq (inj x :: rest) req p = ⟨.ok x, rest, 0⟩)
    (pages : List (List α × Pagination)) (last : List α × Pagination) (rest : List Step)
    (hmore : ∀ P ∈ pages, P.2.Current < P.2.Next) (hlast : last.2.Next ≤ last.2.Current)
    (fuel : Nat) (page : String) (p : Pagination) (result : List α) (t : Int)
    (tr : List Event) (hfuel : pages.length + 1 ≤ fuel) :
    pagedLoop newRequest doReq path fuel page p result
        ⟨pages.map inj ++ inj last :: rest, t, tr⟩ =
      some ((result ++ ((pages.map Prod.fst).flatten ++ last.1), none),
        ⟨rest, t, tr ++ pageRequests path page (pages.map Prod.snd)⟩) := by
  induction pages generalizing fuel page p result tr with
  | nil =>
    obtain ⟨n, rfl⟩ : ∃ n, fuel = n + 1 := ⟨fuel - 1, by simp at hfuel; omega⟩
    have hnot : ¬ last.2.Current < last.2.Next := by omega
    simp [pagedLoop, hN, hD, World.after, hnot, pageRequests]
  | cons P ps ih =>
    obtain ⟨n, rfl⟩ : ∃ n, fuel = n + 1 := ⟨fuel - 1, by simp at hfuel; omega⟩
    have hP : P.2.Current < P.2.Next := hmore P (by simp)
    have hps : ∀ Q ∈ ps, Q.2.Current < Q.2.Next := fun Q hQ => hmore Q (by simp [hQ])
    have hn : ps.length + 1 ≤ n := by simp at hfuel; omega
    have := ih hps n (strconv.Itoa P.2.Next) P.2 (result ++ P.1)
      (tr ++ [Event.request (pageRequest path page)]) hn
    simp only [pagedLoop, List.map_cons, List.cons_append, hN, hD, World.after, hP, if_true,
      Nat.cast_zero, add_zero, this]
    simp [pageRequests]

theorem pageRequests_cons (path page : String) (p : Pagination) (ps : List Pagination) :
    pageRequests path page (p :: ps) =
      Event.request (pageRequest path page) :: pageRequests path (strconv.Itoa p.Next) ps := by
  simp [pageRequests]

theorem attempted_cons (failure : Step) (path page : String) (p : Pagination)
    (ps : List Pagination) :
    attempted failure (pageRequests path page (p :: ps)) =
      Event.request (pageRequest path page) ::
        attempted failure (pageRequests path (strconv.Itoa p.Next) ps) := by
  rw [pageRequests_cons]
  cases failure <;> simp [attempted, pageRequests, List.dropLast]

/-- A listing loop against a script in which, after pages that each announce a
next page, the next request cannot be built or its exchange fails with `e`:
the loop returns `e` and no items. -/
theorem pagedLoop_fails {α : Type} (newRequest : List Step → Request → Option GoError × List Step)
    (doReq : List Step → Request → Pagination →
      Reply (List Step) (Except GoError (List α × Pagination)))
    (inj : List α × Pagination → Step) (path : String)
    (hN : ∀ x rest req, newRequest (inj x :: rest) req = (none, inj x :: rest))
    (hD : ∀ x rest req p, doReq (inj x :: rest) req p = ⟨.ok x, rest, 0⟩)
    (hNb : ∀ e rest req, newRequest (Step.buildFails e :: rest) req = (some e, rest))
    (hNs : ∀ e rest req, newRequest (Step.sendFails e :: rest) req = (none, Step.sendFails e :: rest))
    (hDs : ∀ e rest req p, doReq (Step.sendFails e :: rest) req p = ⟨.error e, rest, 0⟩)
    (pages : List (List α × Pagination)) (failure : Step) (e : GoError) (rest : List Step)
    (hmore : ∀ P ∈ pages, P.2.Current < P.2.Next)
    (hfail : failure = Step.buildFails e ∨ failure = Step.sendFails e)
    (fuel : Nat) (page : String) (p : Pagination) (result : List α) (t : Int)
    (tr : List Event) (hfuel : pages.length + 1 ≤ fuel) :
    pagedLoop newRequest doReq path fuel page p result
        ⟨pages.map inj ++ failure :: rest, t, tr⟩ =
      some (([], some e),
        ⟨rest, t, tr ++ attempted failure (pageRequests path page (pages.map Prod.snd))⟩) := by
  induction pages generalizing fuel page p result tr with
  | nil =>
    obtain ⟨n, rfl⟩ : ∃ n, fuel = n + 1 := ⟨fuel - 1, by simp at hfuel; omega⟩
    rcases hfail with rfl | rfl
    · simp [pagedLoop, hNb, attempted, pageRequests]
    · simp [pagedLoop, hNs, hDs, World.after, attempted, pageRequests]
  | cons P ps ih =>
    obtain ⟨n, rfl⟩ : ∃ n, fuel = n + 1 := ⟨fuel - 1, by simp at hfuel; omega⟩
    have hP : P.2.Current < P.2.Next := hmore P (by simp)
    have hps : ∀ Q ∈ ps, Q.2.Current < Q.2.Next := fun Q hQ => hmore Q (by simp [hQ])
    have hn : ps.length + 1 ≤ n := by simp at hfuel; omega
    have h1 := ih hps n (strconv.Itoa P.2.Next) P.2 (result ++ P.1)
      (tr ++ [Event.request (pageRequest path page)]) hn
    simp only [pagedLoop, List.map_cons, List.cons_append, hN, hD, World.after, hP, if_true,
      Nat.cast_zero, add_zero, h1, attempted_cons]
    simp

/-- C1. Against a remote side that serves the pages `P1..Pn`, the first `n-1`
with `next > current` and the last with `next ≤ current` (in particular with
`next = current`), every paginated listing returns `P1 ++ ... ++ Pn` in that
order with a nil error and issues exactly `n` requests: the first for page
`"1"`, each later one for the decimal rendering of the `next` of the response
before it. -/
theorem listing_returns_all_pages (l : Listing) (pages : List (List l.Item × Pagination))
    (last : List l.Item × Pagination) (rest : List Step) (t : Int) (tr : List Event)
    (fuel : Nat) (hmore : ∀ P ∈ pages, P.2.Current < P.2.Next)
    (hlast : last.2.Next ≤ last.2.Current) (hfuel : (pages ++ [last]).length ≤ fuel) :
    l.run scripted fuel ⟨(pages ++ [last]).map l.step ++ rest, t, tr⟩ =
      some ((((pages ++ [last]).map Prod.fst).flatten, none),
        ⟨rest, t, tr ++ ("1" :: pages.map (fun P => strconv.Itoa P.2.Next)).map
          (fun page => Event.request ⟨"GET", l.path, none, some [("page", page)]⟩)⟩) := by
  have hfuel1 : pages.length + 1 ≤ fuel := by simpa using hfuel
  cases l with
  | ofStacks =>
    have h := pagedLoop_pages scripted.NewRequest scripted.DoReqStacks Step.stackPage
      "/stacks.json" (fun _ _ _ => rfl) (fun _ _ _ _ => rfl) pages last rest hmore hlast
      fuel "1" ⟨0, 0⟩ [] t tr hfuel1
    simpa [Listing.run, StackList, StackList_loop_eq, Listing.step, Listing.path,
      pageRequests, pageRequest] using h
  | ofSettings uid =>
    have h := pagedLoop_pages scripted.NewRequest scripted.DoReqSettings Step.settingPage
      ("/stacks/" ++ uid ++ "/settings.json") (fun _ _ _ => rfl) (fun _ _ _ _ => rfl) pages
      last rest hmore hlast fuel "1" ⟨0, 0⟩ [] t tr hfuel1
    simpa [Listing.run, StackSettings, StackSettings_loop_eq, Listing.step, Listing.path,
      pageRequests, pageRequest] using h
  | ofEnvVars uid =>
    have h := pagedLoop_pages scripted.NewRequest scripted.DoReqEnvVars Step.envVarPage
      ("/stacks/" ++ uid ++ "/environments.json") (fun _ _ _ => rfl) (fun _ _ _ _ => rfl)
      pages last rest hmore hlast fuel "1" ⟨0, 0⟩ [] t tr hfuel1
    simpa [Listing.run, StackEnvVars, StackEnvVars_loop_eq, Listing.step, Listing.path,
      pageRequests, pageRequest] using h
  | ofBackups uid =>
    have h := pagedLoop_pages scripted.NewRequest scripted.DoReqBackups Step.backupPage
      ("/stacks/" ++ uid ++ "/backups.json") (fun _ _ _ => rfl) (fun _ _ _ _ => rfl) pages
      last rest hmore hlast fuel "1" ⟨0, 0⟩ [] t tr hfuel1
    simpa [Listing.run, ManagedBackups, ManagedBackups_loop_eq, Listing.step, Listing.path,
      pageRequests, pageRequest] using h

/-- C1 on three pages of stacks: the pages report `next` 2, 3 and 3. -/
theorem listing_returns_all_pages_witness :
    (∀ P ∈ [([sampleStack "u1" "web" "production" 1 3, sampleStack "u2" "api" "staging" 6 1],
          (⟨1, 2⟩ : Pagination)), ([sampleStack "u3" "db" "production" 1 3], ⟨2, 3⟩)],
        P.2.Current < P.2.Next) ∧
      StackList scripted 3
        ⟨[Step.stackPage ([sampleStack "u1" "web" "production" 1 3,
            sampleStack "u2" "api" "staging" 6 1], ⟨1, 2⟩),
          Step.stackPage ([sampleStack "u3" "db" "production" 1 3], ⟨2, 3⟩),
          Step.stackPage ([sampleStack "u4" "job" "staging" 2 4], ⟨3, 3⟩)], 0, []⟩ =
      some (([sampleStack "u1" "web" "production" 1 3, sampleStack "u2" "api" "staging" 6 1,
          sampleStack "u3" "db" "production" 1 3, sampleStack "u4" "job" "staging" 2 4], none),
        ⟨[], 0, [Event.request ⟨"GET", "/stacks.json", none, some [("page", "1")]⟩,
          Event.request ⟨"GET", "/stacks.json", none, some [("page", "2")]⟩,
          Event.request ⟨"GET", "/stacks.json", none, some [("page", "3")]⟩]⟩) :=
  ⟨by decide,
    listing_returns_all_pages Listing.ofStacks
      [([sampleStack "u1" "web" "production" 1 3, sampleStack "u2" "api" "staging" 6 1],
        ⟨1, 2⟩), ([sampleStack "u3" "db" "production" 1 3], ⟨2, 3⟩)]
      ([sampleStack "u4" "job" "staging" 2 4], ⟨3, 3⟩) [] 0 [] 3 (by decide) (by decide)
      (by decide)⟩

/-- C2. In every paginated listing, when the requests before the `k`-th are
served pages with `next > current` and the `k`-th request cannot be built or
its exchange fails (transport or decoding) with the error `e`, the listing
returns `e` with an empty list, whatever the earlier pages delivered, after
attempting exactly those `k` requests; and no listing, against any client,
returns items together with an error. -/
theorem listing_aborts_on_error (l : Listing) (pages : List (List l.Item × Pagination))
    (failure : Step) (e : GoError) (rest : List Step) (t : Int) (tr : List Event) (fuel : Nat)
    (hmore : ∀ P ∈ pages, P.2.Current < P.2.Next)
    (hfail : failure = Step.buildFails e ∨ failure = Step.sendFails e)
    (hfuel : pages.length + 1 ≤ fuel) :
    l.run scripted fuel ⟨pages.map l.step ++ failure :: rest, t, tr⟩ =
        some (([], some e),
          ⟨rest, t, tr ++ attempted failure
            (("1" :: pages.map (fun P => strconv.Itoa P.2.Next)).map
              (fun page => Event.request ⟨"GET", l.path, none, some [("page", page)]⟩))⟩) ∧
      ∀ (σ : Type) (c : Client σ) (n : Nat) (w w1 : World σ) (items : List l.Item)
        (err : GoError), l.run c n w = some ((items, some err), w1) → items = [] := by
  cases l with
  | ofStacks =>
    have h := pagedLoop_fails scripted.NewRequest scripted.DoReqStacks Step.stackPage
      "/stacks.json" (fun _ _ _ => rfl) (fun _ _ _ _ => rfl) (fun _ _ _ => rfl)
      (fun _ _ _ => rfl) (fun _ _ _ _ => rfl) pages failure e rest hmore hfail
      fuel "1" ⟨0, 0⟩ [] t tr hfuel
    refine ⟨?_, fun σ c n w w1 items err hrun => ?_⟩
    · simpa [Listing.run, StackList, StackList_loop_eq, Listing.step, Listing.path,
        pageRequests, pageRequest] using h
    · simp only [Listing.run, StackList, StackList_loop_eq] at hrun
      exact pagedLoop_error_nil _ _ _ _ _ _ _ _ _ _ _ hrun
  | ofSettings uid =>
    have h := pagedLoop_fails scripted.NewRequest scripted.DoReqSettings Step.settingPage
      ("/stacks/" ++ uid ++ "/settings.json") (fun _ _ _ => rfl) (fun _ _ _ _ => rfl)
      (fun _ _ _ => rfl) (fun _ _ _ => rfl) (fun _ _ _ _ => rfl) pages failure e rest hmore
      hfail fuel "1" ⟨0, 0⟩ [] t tr hfuel
    refine ⟨?_, fun σ c n w w1 items err hrun => ?_⟩
    · simpa [Listing.run, StackSettings, StackSettings_loop_eq, Listing.step, Listing.path,
        pageRequests, pageRequest] using h
    · simp only [Listing.run, StackSettings, StackSettings_loop_eq] at hrun
      exact pagedLoop_error_nil _ _ _ _ _ _ _ _ _ _ _ hrun
  | ofEnvVars uid =>
    have h := pagedLoop_fails scripted.NewRequest scripted.DoReqEnvVars Step.envVarPage
      ("/stacks/" ++ uid ++ "/environments.json") (fun _ _ _ => rfl) (fun _ _ _ _ => rfl)
      (fun _ _ _ => rfl) (fun _ _ _ => rfl) (fun _ _ _ _ => rfl) pages failure e rest hmore
      hfail fuel "1" ⟨0, 0⟩ [] t tr hfuel
    refine ⟨?_, fun σ c n w w1 items err hrun => ?_⟩
    · simpa [Listing.run, StackEnvVars, StackEnvVars_loop_eq, Listing.step, Listing.path,
        pageRequests, pageRequest] using h
    · simp only [Listing.run, StackEnvVars, StackEnvVars_loop_eq] at hrun
      exact pagedLoop_error_nil _ _ _ _ _ _ _ _ _ _ _ hrun
  | ofBackups uid =>
    have h := pagedLoop_fails scripted.NewRequest scripted.DoReqBackups Step.backupPage
      ("/stacks/" ++ uid ++ "/backups.json") (fun _ _ _ => rfl) (fun _ _ _ _ => rfl)
      (fun _ _ _ => rfl) (fun _ _ _ => rfl) (fun _ _ _ _ => rfl) pages failure e rest hmore
      hfail fuel "1" ⟨0, 0⟩ [] t tr hfuel
    refine ⟨?_, fun σ c n w w1 items err hrun => ?_⟩
    · simpa [Listing.run, ManagedBackups, ManagedBackups_loop_eq, Listing.step, Listing.path,
        pageRequests, pageRequest] using h
    · simp only [Listing.run, ManagedBackups, ManagedBackups_loop_eq] at hrun
      exact pagedLoop_error_nil _ _ _ _ _ _ _ _ _ _ _ hrun

/-- C2 on the settings of stack `"u1"`: one page is served, then the decoding
of the second page fails. -/
theorem listing_aborts_on_error_witness :
    (∀ P ∈ [([(⟨"php.version", JsonValue.str "8", false⟩ : StackSetting)],
        (⟨1, 2⟩ : Pagination))], P.2.Current < P.2.Next) ∧
      (Step.sendFails ⟨"invalid character"⟩ = Step.buildFails ⟨"invalid character"⟩ ∨
        Step.sendFails ⟨"invalid character"⟩ = Step.sendFails ⟨"invalid character"⟩) ∧
      StackSettings scripted "u1" 2
        ⟨[Step.settingPage ([⟨"php.version", JsonValue.str "8", false⟩], ⟨1, 2⟩),
          Step.sendFails ⟨"invalid character"⟩], 0, []⟩ =
      some (([], some ⟨"invalid character"⟩),
        ⟨[], 0, [Event.request ⟨"GET", "/stacks/u1/settings.json", none, some [("page", "1")]⟩,
          Event.request ⟨"GET", "/stacks/u1/settings.json", none, some [("page", "2")]⟩]⟩) :=
  ⟨by decide, by decide,
    (listing_aborts_on_error (Listing.ofSettings "u1")
      [([⟨"php.version", JsonValue.str "8", false⟩], ⟨1, 2⟩)]
      (Step.sendFails ⟨"invalid character"⟩) ⟨"invalid character"⟩ [] 0 [] 2 (by decide)
      (by decide) (by decide)).1⟩

/-! ## Name lookup -/

theorem scan_cond_iff (table : Char → Char) (stackName environment : String) (b : Stack) :
    ((strings.ToLower table b.Name == strings.ToLower table stackName) &&
        (environment == "" || environment == b.Environment)) = true ↔
      (strings.ToLower table b.Name = strings.ToLower table stackName ∧
        (environment = "" ∨ environment = b.Environment)) := by
  simp

theorem scan_first_match (table : Char → Char) (stackName environment : String)
    (err : Option GoError) (pre : List Stack) (b : Stack) (post : List Stack)
    (hpre : ∀ x ∈ pre, ¬ (strings.ToLower table x.Name = strings.ToLower table stackName ∧
      (environment = "" ∨ environment = x.Environment)))
    (hb : strings.ToLower table b.Name = strings.ToLower table stackName ∧
      (environment = "" ∨ environment = b.Environment)) :
    FindStackByName.scan table stackName environment err (pre ++ b :: post) = (some b, err) := by
  induction pre with
  | nil =>
    simp only [List.nil_append, FindStackByName.scan]
    rw [if_pos ((scan_cond_iff table stackName environment b).2 hb)]
  | cons x xs ih =>
    have hx := hpre x (by simp)
    simp only [List.cons_append, FindStackByName.scan]
    rw [if_neg (fun h => hx ((scan_cond_iff table stackName environment x).1 h))]
    exact ih (fun y hy => hpre y (by simp [hy]))

theorem scan_no_match (table : Char → Char) (stackName environment : String)
    (err : Option GoError) (l : List Stack)
    (hl : ∀ x ∈ l, ¬ (strings.ToLower table x.Name = strings.ToLower table stackName ∧
      (environment = "" ∨ environment = x.Environment))) :
    FindStackByName.scan table stackName environment err l =
      (none, some (errors.New "Stack not found")) := by
  induction l with
  | nil => rfl
  | cons x xs ih =>
    have hx := hl x (by simp)
    simp only [FindStackByName.scan]
    rw [if_neg (fun h => hx ((scan_cond_iff table stackName environment x).1 h))]
    exact ih (fun y hy => hl y (by simp [hy]))

theorem scan_none_only_if (table : Char → Char) (stackName environment : String)
    (err : Option GoError) (l : List Stack)
    (h : (FindStackByName.scan table stackName environment err l).1 = none) :
    ∀ x ∈ l, ¬ (strings.ToLower table x.Name = strings.ToLower table stackName ∧
      (environment = "" ∨ environment = x.Environment)) := by
  induction l with
  | nil => simp
  | cons x xs ih =>
    simp only [FindStackByName.scan] at h
    split at h
    · simp at h
    · rename_i hx
      intro y hy
      rcases List.mem_cons.1 hy with rfl | hy
      · exact fun hm => hx ((scan_cond_iff table stackName environment y).2 hm)
      · exact ih h y hy

/-- C3. When `StackList` returns the list `L` with a nil error, then for every
query name `q` and environment filter `e`: `FindStackByName` returns, with a
nil error, the first stack of `L` whose lower-cased name equals the lower-cased
`q` and whose environment equals `e` exactly unless `e` is empty; it returns a
nil stack and the error "Stack not found" exactly when no stack of `L` matches;
and a stack named "My-Stack" matches the query "my-stack" under the empty
filter, whatever its environment. -/
theorem FindStackByName_first_match {σ : Type} (table : Char → Char) (c : Client σ)
    (fuel : Nat) (w w1 : World σ) (L : List Stack) (q e : String)
    (hL : StackList c fuel w = some ((L, none), w1)) :
    (∀ (pre : List Stack) (b : Stack) (post : List Stack), L = pre ++ b :: post →
        (∀ x ∈ pre, ¬ (strings.ToLower table x.Name = strings.ToLower table q ∧
          (e = "" ∨ e = x.Environment))) →
        (strings.ToLower table b.Name = strings.ToLower table q ∧
          (e = "" ∨ e = b.Environment)) →
        FindStackByName table c q e fuel w = some ((some b, none), w1)) ∧
      (FindStackByName table c q e fuel w =
          some ((none, some (errors.New "Stack not found")), w1) ↔
        ∀ x ∈ L, ¬ (strings.ToLower table x.Name = strings.ToLower table q ∧
          (e = "" ∨ e = x.Environment))) ∧
      (∀ b : Stack, b.Name = "My-Stack" →
        (strings.ToLower table b.Name = strings.ToLower table "my-stack" ∧
          ("" = "" ∨ "" = b.Environment))) := by
  refine ⟨?_, ⟨?_, ?_⟩, ?_⟩
  · intro pre b post hsplit hpre hb
    simp only [FindStackByName, hL, hsplit]
    rw [scan_first_match table q e none pre b post hpre hb]
  · intro h
    simp only [FindStackByName, hL, Option.some.injEq, Prod.mk.injEq, and_true] at h
    exact scan_none_only_if table q e none L (by rw [h])
  · intro h
    simp only [FindStackByName, hL]
    rw [scan_no_match table q e none L h]
  · intro b hb
    rw [hb]
    exact ⟨rfl, Or.inl rfl⟩

/-- C3 on a list of three stacks: the query "MY-STACK" with the filter
"production" skips the staging stack of that name and the stack of another
name. -/
theorem FindStackByName_first_match_witness :
    StackList scripted 1
        ⟨[Step.stackPage ([sampleStack "u1" "My-Stack" "staging" 1 3,
          sampleStack "u2" "other" "production" 1 3,
          sampleStack "u3" "my-stack" "production" 1 3], ⟨1, 1⟩)], 0, []⟩ =
      some (([sampleStack "u1" "My-Stack" "staging" 1 3,
          sampleStack "u2" "other" "production" 1 3,
          sampleStack "u3" "my-stack" "production" 1 3], none),
        ⟨[], 0, [Event.request ⟨"GET", "/stacks.json", none, some [("page", "1")]⟩]⟩) ∧
      FindStackByName id scripted "MY-STACK" "production" 1
        ⟨[Step.stackPage ([sampleStack "u1" "My-Stack" "staging" 1 3,
          sampleStack "u2" "other" "production" 1 3,
          sampleStack "u3" "my-stack" "production" 1 3], ⟨1, 1⟩)], 0, []⟩ =
      some ((some (sampleStack "u3" "my-stack" "production" 1 3), none),
        ⟨[], 0, [Event.request ⟨"GET", "/stacks.json", none, some [("page", "1")]⟩]⟩) :=
  ⟨rfl,
    (FindStackByName_first_match id scripted 1
      ⟨[Step.stackPage ([sampleStack "u1" "My-Stack" "staging" 1 3,
        sampleStack "u2" "other" "production" 1 3,
        sampleStack "u3" "my-stack" "production" 1 3], ⟨1, 1⟩)], 0, []⟩
      ⟨[], 0, [Event.request ⟨"GET", "/stacks.json", none, some [("page", "1")]⟩]⟩
      [sampleStack "u1" "My-Stack" "staging" 1 3, sampleStack "u2" "other" "production" 1 3,
        sampleStack "u3" "my-stack" "production" 1 3] "MY-STACK" "production" rfl).1
      [sampleStack "u1" "My-Stack" "staging" 1 3, sampleStack "u2" "other" "production" 1 3]
      (sampleStack "u3" "my-stack" "production" 1 3) [] rfl (by decide) (by decide)⟩

/-- C4. A transport failure of the listing is not what `FindStackByName`
returns: against a remote side whose first exchange fails with "connection
refused", `StackList` returns that error, while `FindStackByName`, `StackInfo`
and `StackInfoWithEnvironment` return the error "Stack not found". -/
theorem FindStackByName_hides_listing_error :
    StackList scripted 1 ⟨[Step.sendFails ⟨"connection refused"⟩], 0, []⟩ =
        some (([], some ⟨"connection refused"⟩),
          ⟨[], 0, [Event.request ⟨"GET", "/stacks.json", none, some [("page", "1")]⟩]⟩) ∧
      FindStackByName id scripted "web" "" 1 ⟨[Step.sendFails ⟨"connection refused"⟩], 0, []⟩ =
        some ((none, some ⟨"Stack not found"⟩),
          ⟨[], 0, [Event.request ⟨"GET", "/stacks.json", none, some [("page", "1")]⟩]⟩) ∧
      StackInfo id scripted "web" 1 ⟨[Step.sendFails ⟨"connection refused"⟩], 0, []⟩ =
        some (.returns (none, some ⟨"Stack not found"⟩),
          ⟨[], 0, [Event.request ⟨"GET", "/stacks.json", none, some [("page", "1")]⟩]⟩) ∧
      StackInfoWithEnvironment id scripted "web" "production" 1
          ⟨[Step.sendFails ⟨"connection refused"⟩], 0, []⟩ =
        some (.returns (none, some ⟨"Stack not found"⟩),
          ⟨[], 0, [Event.request ⟨"GET", "/stacks.json", none, some [("page", "1")]⟩]⟩) :=
  ⟨rfl, rfl, rfl, rfl⟩

/-! ## Filtered listing -/

theorem select_eq_filter (filter : filterFunction) (result l : List Stack) :
    StackListWithFilter.select filter result l = result ++ l.filter filter := by
  induction l generalizing result with
  | nil => simp [StackListWithFilter.select]
  | cons x xs ih =>
    simp only [StackListWithFilter.select]
    split
    · rename_i hx
      rw [ih, List.filter_cons_of_pos hx]
      simp
    · rename_i hx
      rw [ih, List.filter_cons_of_neg hx]

/-- C9. For every filter and every client, `StackListWithFilter` runs out of
fuel exactly when `StackList` does and otherwise ends in the same world as
`StackList` (the same requests were issued, in the same order): when the
listing succeeds with the list `L` it returns the stacks of `L` that satisfy
the filter, in the order of `L`, and when the listing fails it returns the
same error and no stack. -/
theorem StackListWithFilter_filters_StackList {σ : Type} (c : Client σ)
    (filter : filterFunction) (fuel : Nat) (w : World σ) :
    StackListWithFilter c filter fuel w =
      match StackList c fuel w with
      | none => none
      | some ((L, none), w1) => some ((L.filter filter, none), w1)
      | some ((_, some err), w1) => some (([], some err), w1) := by
  simp only [StackListWithFilter, StackList, StackListWithFilter_loop_eq, StackList_loop_eq]
  split
  · rename_i h
    simp only [h]
  · rename_i h
    simp only [h]
  · rename_i h
    simp only [h, select_eq_filter, List.nil_append]

/-! ## Setting update and firewall lease -/

theorem replaceFrom_dot (l : List Char) :
    strings.replaceFrom ['.'] ['-'] none 0 l = l.map (fun ch => if ch = '.' then '-' else ch) := by
  induction l with
  | nil => rfl
  | cons x xs ih =>
    by_cases hx : x = '.'
    · simp [strings.replaceFrom, hx, ih]
    · have hx1 : ¬ '.' = x := fun h => hx h.symm
      simp [strings.replaceFrom, hx, hx1, ih]

theorem Replace_dot (key : String) :
    strings.Replace key "." "-" (-1) =
      String.mk (key.data.map (fun ch => if ch = '.' then '-' else ch)) := by
  have h1 : ¬ (("." : String) = "-" ∨ (-1 : Int) = 0) := by decide
  have h2 : ¬ (("." : String).data = []) := by decide
  simp only [strings.Replace, if_neg h1, if_neg h2]
  exact congrArg String.mk (replaceFrom_dot key.data)

/-- C8. For every stack uid and setting key, `Set` sends, when the request can
be built, exactly one request: a `PUT` to `"/stacks/" + uid + "/settings/" +
k + ".json"` where `k` is the key with every `'.'` replaced by `'-'`; when
the request cannot be built it sends nothing and returns the error. `k`
contains no `'.'`, has the length of the key, has `'-'` wherever the key has
`'.'` and agrees with the key elsewhere; normalising `k` again leaves it
unchanged; and the key "a.b.c" becomes "a-b-c". -/
theorem Set_normalises_key {σ : Type} (c : Client σ) (uid key value : String) (w : World σ) :
    let k := strings.Replace key "." "-" (-1)
    let req : Request :=
      ⟨"PUT", "/stacks/" ++ uid ++ "/settings/" ++ k ++ ".json", some [("value", .str value)],
        none⟩
    ((c.NewRequest w.server req).1 = none →
        (Set c uid key value w).2.trace = w.trace ++ [Event.request req]) ∧
      (∀ err, (c.NewRequest w.server req).1 = some err →
        (Set c uid key value w).1 = (none, some err) ∧ (Set c uid key value w).2.trace = w.trace) ∧
      k = String.mk (key.data.map (fun ch => if ch = '.' then '-' else ch)) ∧
      '.' ∉ k.data ∧
      k.length = key.length ∧
      (∀ i : Nat, key.data[i]? = some '.' → k.data[i]? = some '-') ∧
      (∀ (i : Nat) (ch : Char), key.data[i]? = some ch → ch ≠ '.' → k.data[i]? = some ch) ∧
      strings.Replace k "." "-" (-1) = k ∧
      strings.Replace "a.b.c" "." "-" (-1) = "a-b-c" := by
  intro k req
  have hk : k = String.mk (key.data.map (fun ch => if ch = '.' then '-' else ch)) :=
    Replace_dot key
  have hdot : '.' ∉ k.data := by
    rw [hk]
    simp only [List.mem_map, not_exists, not_and]
    intro x _ hx
    by_cases h : x = '.'
    · simp [h] at hx
    · simp [h] at hx
  refine ⟨?_, ?_, hk, hdot, ?_, ?_, ?_, ?_, by decide⟩
  · intro h
    rcases hN : c.NewRequest w.server req with ⟨e, s⟩
    rw [hN] at h
    simp only at h
    subst h
    simp only [Set, k, req] at hN ⊢
    rw [hN]
    rfl
  · intro err h
    rcases hN : c.NewRequest w.server req with ⟨e, s⟩
    rw [hN] at h
    simp only at h
    subst h
    simp only [Set, k, req] at hN ⊢
    rw [hN]
    exact ⟨rfl, rfl⟩
  · rw [hk]
    show (key.data.map _).length = key.data.length
    simp
  · intro i hi
    rw [hk]
    simp [List.getElem?_map, hi]
  · intro i ch hi hch
    rw [hk]
    simp [List.getElem?_map, hi, hch]
  · rw [Replace_dot k]
    have : k.data.map (fun ch => if ch = '.' then '-' else ch) = k.data := by
      conv_rhs => rw [← List.map_id k.data]
      apply List.map_congr_left
      intro x hx
      have : x ≠ '.' := fun h => hdot (h ▸ hx)
      simp [this]
    rw [this]

/-- C7. For every combination of the four optional parameters, `Lease` sends,
when the request can be built, exactly one request: a `POST` to `"/stacks/" +
uid + "/firewalls.json"` whose body has the fields `ttl`, `from_ip`, `port` and
`server_id`, each holding the value supplied by the caller and otherwise its
default (20, "AUTO", 22, ""); when the request cannot be built it sends nothing
and returns the error. No field of the body is null, and with no parameter
supplied the body is `ttl: 20, from_ip: "AUTO", port: 22, server_id: ""`. -/
theorem Lease_fills_defaults {σ : Type} (c : Client σ) (uid : String)
    (ipAddress : Option String) (timeToOpen port : Option Int) (serverUid : Option String)
    (w : World σ) :
    let body : JsonObject :=
      [("ttl", .int (timeToOpen.getD 20)), ("from_ip", .str (ipAddress.getD "AUTO")),
       ("port", .int (port.getD 22)), ("server_id", .str (serverUid.getD ""))]
    let req : Request := ⟨"POST", "/stacks/" ++ uid ++ "/firewalls.json", some body, none⟩
    ((c.NewRequest w.server req).1 = none →
        (Lease c uid ipAddress timeToOpen port serverUid w).2.trace =
          w.trace ++ [Event.request req]) ∧
      (∀ err, (c.NewRequest w.server req).1 = some err →
        (Lease c uid ipAddress timeToOpen port serverUid w).1 = (none, some err) ∧
          (Lease c uid ipAddress timeToOpen port serverUid w).2.trace = w.trace) ∧
      (∀ field ∈ body, field.2 ≠ JsonValue.null) ∧
      (ipAddress = none → timeToOpen = none → port = none → serverUid = none →
        body = [("ttl", .int 20), ("from_ip", .str "AUTO"), ("port", .int 22),
          ("server_id", .str "")]) := by
  intro body req
  have hreq : Lease c uid ipAddress timeToOpen port serverUid w =
      match c.NewRequest w.server req with
      | (some err, s) => ((none, some err), { w with server := s })
      | (none, s) =>
        ((c.DoReqAsync s req).result, World.after { w with server := s } req (c.DoReqAsync s req)) := by
    cases ipAddress <;> cases timeToOpen <;> cases port <;> cases serverUid <;> rfl
  refine ⟨?_, ?_, ?_, ?_⟩
  · intro h
    rcases hN : c.NewRequest w.server req with ⟨e, s⟩
    rw [hN] at h
    simp only at h
    subst h
    rw [hreq, hN]
    rfl
  · intro err h
    rcases hN : c.NewRequest w.server req with ⟨e, s⟩
    rw [hN] at h
    simp only at h
    subst h
    rw [hreq, hN]
    exact ⟨rfl, rfl⟩
  · intro field hfield
    simp only [body, List.mem_cons, List.mem_singleton, List.not_mem_nil, or_false] at hfield
    rcases hfield with rfl | rfl | rfl | rfl <;> simp
  · intro h1 h2 h3 h4
    subst h1 h2 h3 h4
    rfl

/-! ## The build waiter -/

theorem minute_eq : (1 : Int) * time.Minute = 60000000000 := by decide

theorem minute_val : time.Minute = 60000000000 := by decide

theorem minute_max : max time.Minute 0 = 60000000000 := by decide

theorem three_hours_eq : (3 : Int) * time.Hour = 10800000000000 := by decide

theorem timeout_message :
    errors.New ("timed-out after " ++
      strconv.FormatInt (Int.tdiv (3 * time.Hour) time.Second) 10 ++ " second(s)") =
      ⟨"timed-out after 10800 second(s)"⟩ := by decide

theorem break_cond_iff (s : Stack) :
    ((s.StatusCode == 1 || s.StatusCode == 2 || s.StatusCode == 7) &&
        (s.HealthCode == 2 || s.HealthCode == 3 || s.HealthCode == 4)) = true ↔
      terminalPerSpec s := by
  simp [terminalPerSpec, or_assoc]

/-- A poll that fetches a terminal snapshot ends the loop. -/
theorem wait_loop_stop {σ : Type} (c : Client σ) (uid : String) (timeout checkFrequency : Duration)
    (D : Int) (stack : Option Stack) (fuel : Nat) (w w1 : World σ) (st : Stack)
    (h : FindStackByUid c uid w = ((some st, none), w1)) (hst : terminalPerSpec st) :
    WaitStackBuild.loop c uid timeout checkFrequency true D stack (fuel + 1) w =
      some (.returns (stack, none), w1) := by
  simp only [WaitStackBuild.loop, h]
  rw [if_pos ((break_cond_iff st).2 hst)]

/-- A poll that fetches a snapshot that is not terminal ends in a time-out
when the deadline has passed and is followed by another poll otherwise. -/
theorem wait_loop_step {σ : Type} (c : Client σ) (uid : String) (timeout checkFrequency : Duration)
    (D : Int) (stack : Option Stack) (fuel : Nat) (w w1 : World σ) (st : Stack)
    (h : FindStackByUid c uid w = ((some st, none), w1)) (hst : ¬ terminalPerSpec st) :
    WaitStackBuild.loop c uid timeout checkFrequency true D stack (fuel + 1) w =
      if w1.now > D then
        some (.returns (none, some (errors.New ("timed-out after " ++
          strconv.FormatInt (Int.tdiv timeout time.Second) 10 ++ " second(s)"))), w1)
      else
        WaitStackBuild.loop c uid timeout checkFrequency true D stack fuel
          (World.Printf "." (World.Sleep c checkFrequency w1)) := by
  simp only [WaitStackBuild.loop, h]
  rw [if_neg (fun hc => hst ((break_cond_iff st).1 hc))]
  rfl

/-- The loop of `WaitStackBuild` against a script of snapshots: the snapshots
of `pre` are not terminal and are checked before the deadline `D`, the next
snapshot is terminal. -/
theorem wait_loop_scripted (uid : String) (D : Int) (stack : Option Stack)
    (pre : List (Stack × Nat)) (st : Stack) (lat : Nat) (rest : List Step)
    (hpre : ∀ x ∈ pre, ¬ terminalPerSpec x.1) (hst : terminalPerSpec st)
    (t : Int) (tr : List Event) (fuel : Nat)
    (hD : pre = [] ∨
      t + ((pre.map Prod.snd).sum : Nat) + 60000000000 * ((pre.length - 1 : Nat) : Int) ≤ D)
    (hfuel : pre.length + 1 ≤ fuel) :
    WaitStackBuild.loop scripted uid (3 * time.Hour) (1 * time.Minute) true D stack fuel
        ⟨pre.map (fun x => Step.snapshot x.1 x.2) ++ Step.snapshot st lat :: rest, t, tr⟩ =
      some (.returns (stack, none),
        ⟨rest, t + ((pre.map Prod.snd).sum : Nat) + lat + 60000000000 * (pre.length : Int),
          tr ++ (pre.flatMap fun _ => pollRound uid) ++ [Event.request (uidRequest uid)]⟩) := by
  induction pre generalizing t tr fuel with
  | nil =>
    obtain ⟨n, rfl⟩ : ∃ n, fuel = n + 1 := ⟨fuel - 1, by simp at hfuel; omega⟩
    rw [List.map_nil, List.nil_append,
      wait_loop_stop scripted uid _ _ D stack n ⟨Step.snapshot st lat :: rest, t, tr⟩
        ⟨rest, t + lat, tr ++ [Event.request (uidRequest uid)]⟩ st rfl hst]
    simp
  | cons x xs ih =>
    obtain ⟨n, rfl⟩ : ∃ n, fuel = n + 1 := ⟨fuel - 1, by simp at hfuel; omega⟩
    have hx : ¬ terminalPerSpec x.1 := hpre x (by simp)
    have hxs : ∀ y ∈ xs, ¬ terminalPerSpec y.1 := fun y hy => hpre y (by simp [hy])
    have hn : xs.length + 1 ≤ n := by simp at hfuel; omega
    have hD1 : t + ((x.2 : Nat) : Int) + (((xs.map Prod.snd).sum : Nat) : Int) +
        60000000000 * ((xs.length : Nat) : Int) ≤ D := by
      rcases hD with h | h
      · simp at h
      · simpa [add_assoc] using h
    have hnow : ¬ (t + ((x.2 : Nat) : Int) > D) := by
      have h1 : (0 : Int) ≤ (((xs.map Prod.snd).sum : Nat) : Int) := Int.ofNat_nonneg _
      have h2 : (0 : Int) ≤ ((xs.length : Nat) : Int) := Int.ofNat_nonneg _
      omega
    rw [List.map_cons, List.cons_append,
      wait_loop_step scripted uid _ _ D stack n
        ⟨Step.snapshot x.1 x.2 ::
          (xs.map (fun x => Step.snapshot x.1 x.2) ++ Step.snapshot st lat :: rest), t, tr⟩
        ⟨xs.map (fun x => Step.snapshot x.1 x.2) ++ Step.snapshot st lat :: rest,
          t + ((x.2 : Nat) : Int), tr ++ [Event.request (uidRequest uid)]⟩ x.1 rfl hx,
      if_neg hnow]
    have hD2 : xs = [] ∨ (t + ((x.2 : Nat) : Int) + 60000000000) +
        (((xs.map Prod.snd).sum : Nat) : Int) +
          60000000000 * (((xs.length - 1 : Nat)) : Int) ≤ D := by
      cases xs with
      | nil => exact Or.inl rfl
      | cons y ys =>
        right
        simp only [List.length_cons, Nat.add_sub_cancel] at hD1 ⊢
        push_cast at hD1 ⊢
        omega
    have := ih hxs (t + ((x.2 : Nat) : Int) + 60000000000)
      (tr ++ [Event.request (uidRequest uid)] ++ [Event.sleep (1 * time.Minute)] ++
        [Event.print "."]) n hD2 hn
    have hw : World.Printf "." (World.Sleep scripted (1 * time.Minute)
        (⟨xs.map (fun x => Step.snapshot x.1 x.2) ++ Step.snapshot st lat :: rest,
          t + ((x.2 : Nat) : Int), tr ++ [Event.request (uidRequest uid)]⟩ :
            World (List Step))) =
        ⟨xs.map (fun x => Step.snapshot x.1 x.2) ++ Step.snapshot st lat :: rest,
          t + ((x.2 : Nat) : Int) + 60000000000,
          tr ++ [Event.request (uidRequest uid)] ++ [Event.sleep (1 * time.Minute)] ++
            [Event.print "."]⟩ := by
      simp [World.Printf, World.Sleep, scripted, minute_max]
    rw [hw, this]
    simp only [List.map_cons, List.sum_cons, List.length_cons, List.flatMap_cons, pollRound,
      minute_eq, minute_val]
    push_cast
    simp only [List.append_assoc, List.cons_append, List.nil_append, Option.some.injEq,
      Prod.mk.injEq, true_and]
    congr 1
    ring

/-- C5. Against a remote side that serves the snapshots `pre`, none of them
terminal and each taking its own time to fetch, and then a terminal snapshot,
with the last of `pre` checked no later than three hours after the start:
`WaitStackBuild` returns with a nil error at the poll that fetches the
terminal snapshot, the first one; every snapshot of `pre` is followed by a
one-minute sleep and another poll. A snapshot with status 6, or with status 1
and health 0 or 1, is not terminal; one with status 1 and health 3 is. -/
theorem WaitStackBuild_stops_at_first_terminal (uid : String) (pre : List (Stack × Nat))
    (st : Stack) (lat : Nat) (rest : List Step) (t : Int) (tr : List Event) (fuel : Nat)
    (hpre : ∀ x ∈ pre, ¬ terminalPerSpec x.1) (hst : terminalPerSpec st)
    (hdeadline : (((pre.map Prod.snd).sum : Nat) : Int) +
      time.Minute * ((pre.length - 1 : Nat) : Int) ≤ 3 * time.Hour)
    (hfuel : pre.length + 1 ≤ fuel) :
    WaitStackBuild scripted uid fuel
        ⟨pre.map (fun x => Step.snapshot x.1 x.2) ++ Step.snapshot st lat :: rest, t, tr⟩ =
      some (.returns (none, none),
        ⟨rest, t + ((pre.map Prod.snd).sum : Nat) + lat + time.Minute * (pre.length : Int),
          tr ++ (pre.flatMap fun _ =>
            [Event.request ⟨"GET", "/stacks/" ++ uid ++ ".json", none, none⟩,
              Event.sleep time.Minute, Event.print "."]) ++
            [Event.request ⟨"GET", "/stacks/" ++ uid ++ ".json", none, none⟩]⟩) ∧
      (∀ s : Stack, s.StatusCode = 6 ∨ (s.StatusCode = 1 ∧ (s.HealthCode = 0 ∨ s.HealthCode = 1)) →
        ¬ terminalPerSpec s) ∧
      (∀ s : Stack, s.StatusCode = 1 → s.HealthCode = 3 → terminalPerSpec s) := by
  refine ⟨?_, ?_, ?_⟩
  · have hD : pre = [] ∨ t + ((pre.map Prod.snd).sum : Nat) +
        60000000000 * ((pre.length - 1 : Nat) : Int) ≤ t + 3 * time.Hour := by
      right
      rw [minute_val] at hdeadline
      omega
    have h := wait_loop_scripted uid (t + 3 * time.Hour) none pre st lat rest hpre hst t tr fuel
      hD hfuel
    simp only [WaitStackBuild]
    rw [h, minute_val]
    rfl
  · rintro s (h | ⟨h1, h2 | h2⟩) ⟨h3, h4⟩
    · omega
    · omega
    · omega
  · intro s h1 h2
    exact ⟨Or.inl h1, Or.inr (Or.inl h2)⟩

/-- C5 on four snapshots: deploying and healthy, then deployed with health
unknown, then deployed and still building, then deployed and healthy. -/
theorem WaitStackBuild_stops_at_first_terminal_witness :
    (∀ x ∈ [(sampleStack "u1" "web" "production" 6 3, 5),
        (sampleStack "u1" "web" "production" 1 0, 0),
        (sampleStack "u1" "web" "production" 1 1, 7)], ¬ terminalPerSpec x.1) ∧
      terminalPerSpec (sampleStack "u1" "web" "production" 1 3) ∧
      WaitStackBuild scripted "u1" 4
        ⟨[Step.snapshot (sampleStack "u1" "web" "production" 6 3) 5,
          Step.snapshot (sampleStack "u1" "web" "production" 1 0) 0,
          Step.snapshot (sampleStack "u1" "web" "production" 1 1) 7,
          Step.snapshot (sampleStack "u1" "web" "production" 1 3) 2], 0, []⟩ =
      some (.returns (none, none),
        ⟨[], 180000000014,
          [Event.request ⟨"GET", "/stacks/u1.json", none, none⟩,
            Event.sleep 60000000000, Event.print ".",
            Event.request ⟨"GET", "/stacks/u1.json", none, none⟩,
            Event.sleep 60000000000, Event.print ".",
            Event.request ⟨"GET", "/stacks/u1.json", none, none⟩,
            Event.sleep 60000000000, Event.print ".",
            Event.request ⟨"GET", "/stacks/u1.json", none, none⟩]⟩) :=
  ⟨by decide, by decide,
    (WaitStackBuild_stops_at_first_terminal "u1"
      [(sampleStack "u1" "web" "production" 6 3, 5),
        (sampleStack "u1" "web" "production" 1 0, 0),
        (sampleStack "u1" "web" "production" 1 1, 7)]
      (sampleStack "u1" "web" "production" 1 3) 2 [] 0 [] 4 (by decide) (by decide)
      (by decide) (by decide)).1⟩

/-- Whatever `WaitStackBuild` returns, the stack it returns is nil. -/
theorem wait_loop_returns_nil {σ : Type} (c : Client σ) (uid : String)
    (timeout checkFrequency : Duration) (D : Int) (fuel : Nat) (w w1 : World σ)
    (r : Option Stack) (err : Option GoError)
    (h : WaitStackBuild.loop c uid timeout checkFrequency true D none fuel w =
      some (.returns (r, err), w1)) : r = none := by
  induction fuel generalizing w with
  | zero => simp [WaitStackBuild.loop] at h
  | succ n ih =>
    simp only [WaitStackBuild.loop] at h
    split at h
    · simp only [Option.some.injEq, Prod.mk.injEq, Outcome.returns.injEq] at h
      exact h.1.1.symm
    · simp at h
    · split at h
      · simp only [Option.some.injEq, Prod.mk.injEq, Outcome.returns.injEq] at h
        exact h.1.1.symm
      · split at h
        · simp only [Option.some.injEq, Prod.mk.injEq, Outcome.returns.injEq] at h
          exact h.1.1.symm
        · exact ih _ h

/-- C10. The stack `WaitStackBuild` returns on success is not the snapshot of
the final poll: against a remote side whose first snapshot is deployed (1) and
healthy (3), `FindStackByUid` returns that snapshot, while `WaitStackBuild`
returns a nil stack with a nil error. -/
theorem WaitStackBuild_returns_nil_stack :
    FindStackByUid scripted "u1"
        ⟨[Step.snapshot (sampleStack "u1" "web" "production" 1 3) 0], 0, []⟩ =
      ((some (sampleStack "u1" "web" "production" 1 3), none),
        ⟨[], 0, [Event.request ⟨"GET", "/stacks/u1.json", none, none⟩]⟩) ∧
    WaitStackBuild scripted "u1" 1
        ⟨[Step.snapshot (sampleStack "u1" "web" "production" 1 3) 0], 0, []⟩ =
      some (.returns (none, none),
        ⟨[], 0, [Event.request ⟨"GET", "/stacks/u1.json", none, none⟩]⟩) ∧
    ∀ (σ : Type) (c : Client σ) (uid : String) (fuel : Nat) (w w1 : World σ)
      (r : Option Stack) (err : Option GoError),
      WaitStackBuild c uid fuel w = some (.returns (r, err), w1) → r = none :=
  ⟨rfl, rfl, fun _ c uid fuel w w1 r err h =>
    wait_loop_returns_nil c uid _ _ _ fuel w w1 r err h⟩

/-- What `FindStackByUid` does when the request can be built. -/
theorem FindStackByUid_built {σ : Type} (c : Client σ) (uid : String) (w : World σ)
    (hbuild : (c.NewRequest w.server (uidRequest uid)).1 = none) :
    FindStackByUid c uid w =
      ((c.DoReqStack (c.NewRequest w.server (uidRequest uid)).2 (uidRequest uid)).result,
        ⟨(c.DoReqStack (c.NewRequest w.server (uidRequest uid)).2 (uidRequest uid)).server,
          w.now + (c.DoReqStack (c.NewRequest w.server (uidRequest uid)).2 (uidRequest uid)).elapsed,
          w.trace ++ [Event.request (uidRequest uid)]⟩) := by
  rcases hN : c.NewRequest w.server (uidRequest uid) with ⟨e, s⟩
  rw [hN] at hbuild
  simp only at hbuild
  subst hbuild
  simp only [FindStackByUid, uidRequest] at hN ⊢
  rw [hN]
  rfl

/-- A fetch that succeeds: the clock does not go back and one request is
recorded. -/
theorem fetch_not_terminal {σ : Type} (c : Client σ) (uid : String)
    (hbuild : ∀ s req, (c.NewRequest s req).1 = none)
    (hfetch : ∀ s req, ∃ st, (c.DoReqStack s req).result = (some st, none) ∧
      ¬ terminalPerSpec st) (w : World σ) :
    ∃ (st : Stack) (w1 : World σ), FindStackByUid c uid w = ((some st, none), w1) ∧
      ¬ terminalPerSpec st ∧ w.now ≤ w1.now ∧
      w1.trace = w.trace ++ [Event.request (uidRequest uid)] := by
  obtain ⟨st, hres, hst⟩ :=
    hfetch (c.NewRequest w.server (uidRequest uid)).2 (uidRequest uid)
  have hF := FindStackByUid_built c uid w (hbuild _ _)
  rw [hres] at hF
  exact ⟨st, _, hF, hst, by simp, rfl⟩

/-- The sleep and the progress dot between two polls. -/
theorem sleep_round {σ : Type} (c : Client σ) (w : World σ) :
    w.now + 60000000000 ≤ (World.Printf "." (World.Sleep c (1 * time.Minute) w)).now ∧
      (World.Printf "." (World.Sleep c (1 * time.Minute) w)).trace =
        w.trace ++ [Event.sleep time.Minute, Event.print "."] := by
  constructor
  · simp only [World.Printf, World.Sleep, one_mul, minute_max]
    omega
  · simp [World.Printf, World.Sleep]

/-- The loop of `WaitStackBuild` against a remote side that always answers
with a snapshot that is not terminal, from a world in which the deadline `D`
is less than `m` minutes away. -/
theorem wait_loop_times_out {σ : Type} (c : Client σ) (uid : String) (D : Int)
    (hbuild : ∀ s req, (c.NewRequest s req).1 = none)
    (hfetch : ∀ s req, ∃ st, (c.DoReqStack s req).result = (some st, none) ∧
      ¬ terminalPerSpec st)
    (m : Nat) (w : World σ) (hm : D < w.now + 60000000000 * (m : Int)) :
    ∃ (n : Nat) (w1 : World σ), 1 ≤ n ∧ n ≤ m + 1 ∧
      (∀ fuel, n ≤ fuel →
        WaitStackBuild.loop c uid (3 * time.Hour) (1 * time.Minute) true D none fuel w =
          some (.returns (none, some ⟨"timed-out after 10800 second(s)"⟩), w1)) ∧
      (∀ fuel, fuel < n →
        WaitStackBuild.loop c uid (3 * time.Hour) (1 * time.Minute) true D none fuel w = none) ∧
      D < w1.now ∧
      w1.trace = w.trace ++ (List.replicate (n - 1) (pollRound uid)).flatten ++
        [Event.request (uidRequest uid)] := by
  induction m generalizing w with
  | zero =>
    obtain ⟨st, w1, hF, hst, hnow, htr⟩ := fetch_not_terminal c uid hbuild hfetch w
    have hlate : w1.now > D := by
      simp at hm
      omega
    refine ⟨1, w1, le_refl _, by omega, ?_, ?_, hlate, ?_⟩
    · intro fuel hfuel
      obtain ⟨k, rfl⟩ : ∃ k, fuel = k + 1 := ⟨fuel - 1, by omega⟩
      rw [wait_loop_step c uid _ _ D none k w w1 st hF hst, if_pos hlate, timeout_message]
    · intro fuel hfuel
      obtain rfl : fuel = 0 := by omega
      rfl
    · simp [htr]
  | succ m ih =>
    obtain ⟨st, w1, hF, hst, hnow, htr⟩ := fetch_not_terminal c uid hbuild hfetch w
    by_cases hlate : w1.now > D
    · refine ⟨1, w1, le_refl _, by omega, ?_, ?_, hlate, ?_⟩
      · intro fuel hfuel
        obtain ⟨k, rfl⟩ : ∃ k, fuel = k + 1 := ⟨fuel - 1, by omega⟩
        rw [wait_loop_step c uid _ _ D none k w w1 st hF hst, if_pos hlate, timeout_message]
      · intro fuel hfuel
        obtain rfl : fuel = 0 := by omega
        rfl
      · simp [htr]
    · obtain ⟨hsleep, hstr⟩ := sleep_round c w1
      have hnext : D < (World.Printf "." (World.Sleep c (1 * time.Minute) w1)).now +
          60000000000 * (m : Int) := by
        push_cast at hm
        omega
      obtain ⟨n, w2, hn1, hn2, hrun, hshort, hD, htr2⟩ := ih _ hnext
      refine ⟨n + 1, w2, by omega, by omega, ?_, ?_, hD, ?_⟩
      · intro fuel hfuel
        obtain ⟨k, rfl⟩ : ∃ k, fuel = k + 1 := ⟨fuel - 1, by omega⟩
        rw [wait_loop_step c uid _ _ D none k w w1 st hF hst, if_neg hlate]
        exact hrun k (by omega)
      · intro fuel hfuel
        cases fuel with
        | zero => rfl
        | succ k =>
          rw [wait_loop_step c uid _ _ D none k w w1 st hF hst, if_neg hlate]
          exact hshort k (by omega)
      · rw [htr2, hstr, htr]
        obtain ⟨j, rfl⟩ : ∃ j, n = j + 1 := ⟨n - 1, by omega⟩
        simp [pollRound, List.replicate_succ]

/-- C6. Against a client whose every request can be built and whose every
fetch answers with a snapshot that is not terminal, whatever the clock does,
`WaitStackBuild` ends at some poll `n` with `1 ≤ n ≤ 182`: it has not returned
before poll `n`, and at poll `n` it returns a nil stack and the error
"timed-out after 10800 second(s)", the clock then reading strictly more than
the start plus three hours; the polls are separated by a sleep of one minute
and a progress dot. -/
theorem WaitStackBuild_times_out {σ : Type} (c : Client σ) (uid : String) (w : World σ)
    (hbuild : ∀ s req, (c.NewRequest s req).1 = none)
    (hfetch : ∀ s req, ∃ st, (c.DoReqStack s req).result = (some st, none) ∧
      ¬ terminalPerSpec st) :
    ∃ (n : Nat) (w1 : World σ), 1 ≤ n ∧ n ≤ 182 ∧
      (∀ fuel, n ≤ fuel →
        WaitStackBuild c uid fuel w =
          some (.returns (none, some ⟨"timed-out after 10800 second(s)"⟩), w1)) ∧
      (∀ fuel, fuel < n → WaitStackBuild c uid fuel w = none) ∧
      w.now + 3 * time.Hour < w1.now ∧
      w1.trace = w.trace ++
        (List.replicate (n - 1)
          [Event.request ⟨"GET", "/stacks/" ++ uid ++ ".json", none, none⟩,
            Event.sleep time.Minute, Event.print "."]).flatten ++
        [Event.request ⟨"GET", "/stacks/" ++ uid ++ ".json", none, none⟩] ∧
      time.Minute = 60 * 1000000000 ∧ 3 * time.Hour = 10800 * 1000000000 := by
  have hm : w.now + 3 * time.Hour < w.now + 60000000000 * ((181 : Nat) : Int) := by
    rw [three_hours_eq]
    push_cast
    omega
  obtain ⟨n, w1, h1, h2, hrun, hshort, hD, htr⟩ :=
    wait_loop_times_out c uid (w.now + 3 * time.Hour) hbuild hfetch 181 w hm
  exact ⟨n, w1, h1, h2, hrun, hshort, hD, htr, by decide, by decide⟩

/-- C6 on a stack that stays in deployment (status 6, health 1): every fetch
takes two seconds and every sleep lasts a millisecond longer than asked. -/
theorem WaitStackBuild_times_out_witness :
    (∀ s req, ((steady (sampleStack "u1" "web" "production" 6 1) 2000000000 1000000).NewRequest
        s req).1 = none) ∧
      ∃ (n : Nat) (w1 : World Nat), 1 ≤ n ∧ n ≤ 182 ∧
        (∀ fuel, n ≤ fuel →
          WaitStackBuild (steady (sampleStack "u1" "web" "production" 6 1) 2000000000 1000000)
              "u1" fuel ⟨0, 0, []⟩ =
            some (.returns (none, some ⟨"timed-out after 10800 second(s)"⟩), w1)) ∧
        (∀ fuel, fuel < n →
          WaitStackBuild (steady (sampleStack "u1" "web" "production" 6 1) 2000000000 1000000)
              "u1" fuel ⟨0, 0, []⟩ = none) ∧
        (0 : Int) + 3 * time.Hour < w1.now ∧
        w1.trace = [] ++
          (List.replicate (n - 1)
            [Event.request ⟨"GET", "/stacks/" ++ "u1" ++ ".json", none, none⟩,
              Event.sleep time.Minute, Event.print "."]).flatten ++
          [Event.request ⟨"GET", "/stacks/" ++ "u1" ++ ".json", none, none⟩] ∧
        time.Minute = 60 * 1000000000 ∧ 3 * time.Hour = 10800 * 1000000000 :=
  ⟨fun _ _ => rfl,
    WaitStackBuild_times_out (steady (sampleStack "u1" "web" "production" 6 1) 2000000000 1000000)
      "u1" ⟨0, 0, []⟩ (fun _ _ => rfl)
      (fun _ _ => ⟨sampleStack "u1" "web" "production" 6 1, rfl, by decide⟩)⟩

end Cloud66
